import Mathlib

/-!
Verification development for the nebula coding agent (Go).

The embedding is shallow: Go functions become Lean functions, the file
system becomes an explicit value (a map from path to content plus a set of
directories), operator input becomes a list of lines, and the hosted chat
model becomes an oracle function from the message history to a response.
All definitions are executable.
-/

namespace Nebula

/-! ## String helpers

Go standard-library string operations used by the tools, re-implemented
structurally over the character list of a string so that they compute by
kernel reduction.
-/

/-- Character class of Go unicode.IsSpace restricted to the ASCII whitespace
that can occur on an operator input line (space, tab, CR, LF).  Go also
treats a few other Unicode code points as space; none of them occur in any
input considered here. -/
def isSpaceChar (c : Char) : Bool :=
  c = ' ' || c = '\t' || c = '\n' || c = '\r'

/-- Go strings.TrimSpace: drop leading and trailing whitespace. -/
def trimSpace (s : String) : String :=
  ⟨((s.data.dropWhile isSpaceChar).reverse.dropWhile isSpaceChar).reverse⟩

/-- Go strings.HasPrefix s pre. -/
def strStartsWith (s pre : String) : Bool :=
  pre.data.isPrefixOf s.data

/-- Go strings.Contains s sub. -/
def strContains (s sub : String) : Bool :=
  s.data.tails.any (fun t => sub.data.isPrefixOf t)

/-- Split a character list on a separator character; the result always has
at least one (possibly empty) group. -/
def splitCharsOn (sep : Char) : List Char → List (List Char)
  | [] => [[]]
  | c :: rest =>
    match splitCharsOn sep rest with
    | [] => [[c]]
    | grp :: groups =>
      if c = sep then [] :: grp :: groups else (c :: grp) :: groups

/-- Go filepath.Dir for slash-separated relative paths: everything before
the last separator, or "." when the path has no separator. -/
def dirOf (path : String) : String :=
  let parts := (splitCharsOn '/' path.data).dropLast
  if parts.isEmpty then "." else ⟨List.intercalate ['/'] parts⟩

/-- The chain of directories that os.MkdirAll d creates: every non-empty
slash-prefix of d, ending with d itself.  MkdirAll "." creates nothing. -/
def ancestorDirs (d : String) : List String :=
  if d = "." || d = "" then []
  else
    let parts := splitCharsOn '/' d.data
    (List.range parts.length).map (fun i => ⟨List.intercalate ['/'] (parts.take (i + 1))⟩)

/-! ## File-system model

The file system seen by writeFile and editFile: a finite map from path to
full textual content, plus the set of directories that exist.  os.Stat
succeeds on a path iff it is a file or a directory of this model.
-/

/-- Association list of files (path, content) together with existing
directories. -/
structure FS where
  files : List (String × String)
  dirs : List String
deriving DecidableEq

/-- First-match lookup in the file list (the association list never holds a
path twice because creation always removes the old entry first). -/
def lookupFile : List (String × String) → String → Option String
  | [], _ => none
  | (p, c) :: rest, path => if p = path then some c else lookupFile rest path

/-- os.Stat succeeds: the path exists as a file or as a directory. -/
def FS.stat (fs : FS) (path : String) : Bool :=
  (lookupFile fs.files path).isSome || fs.dirs.any (fun d => d = path)

/-- os.Create followed by WriteString: (re)place the file content. -/
def FS.setFile (fs : FS) (path content : String) : FS :=
  { fs with files := (path, content) :: fs.files.filter (fun pr => pr.1 != path) }

/-- os.MkdirAll: create the directory and all its ancestors. -/
def mkdirAll (fs : FS) (d : String) : FS :=
  { fs with dirs := fs.dirs ++ (ancestorDirs d).filter (fun x => !fs.dirs.any (fun y => y = x)) }

/-! ## Tool result JSON -/

/-- json.Marshal of the WriteFileResult / EditFileResult struct
(success flag plus an error field that is omitted when empty).  Escaping of
special characters inside the error text is not modelled; no error message
produced below needs it. -/
def marshalToolResult (success : Bool) (error : String) : String :=
  if error = "" then
    "\x7b\"success\":" ++ (if success then "true" else "false") ++ "\x7d"
  else
    "\x7b\"success\":" ++ (if success then "true" else "false") ++
      ",\"error\":\"" ++ error ++ "\"\x7d"

/-! ## Diff engine

formatUnifiedDiff (tools/editfile.go) delegates to myers.ComputeEdits and
gotextdiff.ToUnified from the external gotextdiff library, which is not
part of this repository.
-/

/-- Modelled from the spec: myers.ComputeEdits of the external gotextdiff
library computes a minimal line-level edit script between the two texts;
identical inputs yield an empty edit script and differing inputs a
non-empty one.  The content of the individual edits is never inspected by
this repository, so the script is modelled as a single whole-text edit. -/
def myersComputeEdits (oldText newText : String) : List (String × String) :=
  if oldText = newText then [] else [(oldText, newText)]

/-- Modelled from the spec: gotextdiff.ToUnified renders a non-empty edit
script as a unified-diff text block with old/new path headers; the exact
text is operator-facing only. -/
def toUnifiedString (oldPath newPath : String) (edits : List (String × String)) : String :=
  "--- " ++ oldPath ++ "\n+++ " ++ newPath ++ "\n" ++
    String.join (edits.map (fun e => "-" ++ e.1 ++ "\n+" ++ e.2 ++ "\n"))

/-- formatUnifiedDiff (tools/editfile.go lines 131-149): empty string when
the texts are equal or the edit script is empty, otherwise the rendered
unified diff. -/
def formatUnifiedDiff (oldText newText oldPath newPath : String) : String :=
  if oldText = newText then ""
  else
    let edits := myersComputeEdits oldText newText
    if edits = [] then ""
    else toUnifiedString oldPath newPath edits

/-! ## Mutating tools

WriteFile and EditFile are embedded at the level after their JSON argument
parse (the Go functions first json.Unmarshal the raw argument string; a
parse failure there is returned as a hard Go error and is orthogonal to
every property below).  Besides the result string they thread the file
system, count how often the confirmation prompt was shown, and consume
operator input lines.
-/

/-- Parsed arguments of writeFile. -/
structure WriteFileArgs where
  path : String
  content : String
deriving DecidableEq

/-- Parsed arguments of editFile. -/
structure EditFileArgs where
  path : String
  newContent : String
deriving DecidableEq

deriving instance DecidableEq for Except

/-- Outcome of one mutating-tool invocation: the Go return value (result
string or error), the file system afterwards, the number of confirmation
prompts shown, and the operator input lines not yet consumed. -/
structure ToolEffect where
  output : Except String String
  fs : FS
  prompts : Nat
  stdin : List String
deriving DecidableEq

/-- WriteFile (tools/writefile.go lines 165-226): refuse existing paths,
then preview, confirm, create parent directories and write. -/
def WriteFile (args : WriteFileArgs) (fs : FS) (stdin : List String) : ToolEffect :=
  if fs.stat args.path then
    ⟨.ok (marshalToolResult false
        ("ファイルが既に存在します。既存ファイルの編集にはeditFileを使用してください: " ++ args.path)),
      fs, 0, stdin⟩
  else
    match stdin with
    | [] =>
      ⟨.ok (marshalToolResult false "ユーザー応答の読み取りに失敗しました"), fs, 1, []⟩
    | line :: rest =>
      let response := trimSpace line
      if response ≠ "y" ∧ response ≠ "Y" then
        ⟨.ok (marshalToolResult false "ユーザーによってキャンセルされました"), fs, 1, rest⟩
      else
        let fs1 := mkdirAll fs (dirOf args.path)
        ⟨.ok (marshalToolResult true ""), fs1.setFile args.path args.content, 1, rest⟩

/-- EditFile (tools/editfile.go lines 30-100): require an existing file,
compute the diff, refuse a no-op, then confirm and overwrite.  The branch
where os.Stat succeeds but os.ReadFile fails (the path is a directory)
returns the read-failure result; the %v detail of Go error values inside
messages is elided. -/
def EditFile (args : EditFileArgs) (fs : FS) (stdin : List String) : ToolEffect :=
  if fs.stat args.path then
    match lookupFile fs.files args.path with
    | none =>
      ⟨.ok (marshalToolResult false "ファイルの読み込みに失敗しました"), fs, 0, stdin⟩
    | some oldContent =>
      let diffText := formatUnifiedDiff oldContent args.newContent args.path args.path
      if diffText = "" then
        ⟨.ok (marshalToolResult false "ファイルに変更がありません"), fs, 0, stdin⟩
      else
        match stdin with
        | [] =>
          ⟨.ok (marshalToolResult false "ユーザー応答の読み取りに失敗しました"), fs, 1, []⟩
        | line :: rest =>
          let response := trimSpace line
          if response ≠ "y" ∧ response ≠ "Y" then
            ⟨.ok (marshalToolResult false "ユーザーによってキャンセルされました"), fs, 1, rest⟩
          else
            ⟨.ok (marshalToolResult true ""), fs.setFile args.path args.newContent, 1, rest⟩
  else
    ⟨.ok (marshalToolResult false
        "ファイルが存在しません。新しいファイルの作成にはwriteFileを使用してください。"),
      fs, 0, stdin⟩

/-! ## searchInDirectory

The directory tree walked by filepath.Walk, with entries in the lexical
order Walk visits them.  A file carries its readability (os.Open succeeds)
and its content as the list of lines bufio.Scanner produces. -/

/-- A node of the walked tree. -/
inductive FsNode where
  | file (readable : Bool) (lines : List String)
  | dir (entries : List (String × FsNode))

mutual

/-- The Walk callback of SearchInDirectory (tools/searchindirectory.go
lines 39-83) applied to the node at the given accumulated path: an
excluded path is pruned (for a directory, with filepath.SkipDir for its
whole subtree); directories are otherwise descended; a readable file is
recorded once iff some line contains the keyword; an unreadable file is
silently skipped. -/
def walkNode (keyword : String) (excludePaths : List String) (path : String) :
    FsNode → List String
  | .file readable lines =>
    if excludePaths.any (fun e => strStartsWith path e) then []
    else if readable then
      if lines.any (fun line => strContains line keyword) then [path] else []
    else []
  | .dir entries =>
    if excludePaths.any (fun e => strStartsWith path e) then []
    else walkEntries keyword excludePaths path entries

/-- Walk the children of a directory in order, extending the path with the
entry name (filepath.Walk joins with a slash). -/
def walkEntries (keyword : String) (excludePaths : List String) (path : String) :
    List (String × FsNode) → List String
  | [] => []
  | (childName, child) :: rest =>
    walkNode keyword excludePaths (path ++ "/" ++ childName) child ++
      walkEntries keyword excludePaths path rest

end

/-- SearchInDirectory on parsed arguments: filepath.Walk from the root
path, collecting matching file paths in visit order.  The Go function
wraps this list in a SearchInDirectoryResult JSON value. -/
def SearchInDirectory (path keyword : String) (excludePaths : List String)
    (root : FsNode) : List String :=
  walkNode keyword excludePaths path root

mutual

/-- Specification-side view of the walk, independent of any keyword: the
files the walk visits (with their readability and lines), i.e. every file
that is not pruned by an excluded prefix on its own path or on the path of
a directory above it. -/
def visibleNode (excludePaths : List String) (path : String) :
    FsNode → List (String × Bool × List String)
  | .file readable lines =>
    if excludePaths.any (fun e => strStartsWith path e) then []
    else [(path, readable, lines)]
  | .dir entries =>
    if excludePaths.any (fun e => strStartsWith path e) then []
    else visibleEntries excludePaths path entries

/-- Children part of visibleNode. -/
def visibleEntries (excludePaths : List String) (path : String) :
    List (String × FsNode) → List (String × Bool × List String)
  | [] => []
  | (childName, child) :: rest =>
    visibleNode excludePaths (path ++ "/" ++ childName) child ++
      visibleEntries excludePaths path rest

end

/-! ## Orchestrator

handleUserInput (main.go lines 84-153).  The chat model is an oracle from
the current message history to a response; the tool registry maps a tool
name to its execution function (raw argument text to result string or Go
error), mirroring GetAvailableTools.
-/

/-- A tool call of a model response: call id, function name, raw JSON
argument text. -/
structure ToolCall where
  id : String
  name : String
  args : String
deriving DecidableEq

/-- A chat message: role, textual content, the call id when the role is
tool, and the requested tool calls when the role is assistant. -/
structure Message where
  role : String
  content : String
  toolCallID : String
  toolCalls : List ToolCall
deriving DecidableEq

/-- One CreateChatCompletion outcome: a transport error, a response with
an empty choice list, or the message of the first choice. -/
inductive ModelResponse where
  | transportError (msg : String)
  | noChoices
  | reply (message : Message)

/-- The chat model as an oracle over the request history. -/
def Model : Type := List Message → ModelResponse

/-- The tool registry: name to execution function. -/
def Registry : Type := String → Option (String → Except String String)

/-- The JSON packaging of a failed tool execution
(main.go line 135). -/
def toolExecFailedJSON (e : String) : String :=
  "\x7b\"error\": \"Tool execution failed: " ++ e ++ "\"\x7d"

/-- The tool-role message appended for one executed call
(main.go lines 133-143): the result string, or the packaged error. -/
def toolResultMessage (f : String → Except String String) (tc : ToolCall) : Message :=
  { role := "tool"
    content :=
      match f tc.args with
      | .ok r => r
      | .error e => toolExecFailedJSON e
    toolCallID := tc.id
    toolCalls := [] }

/-- The tool-role messages appended for the calls of one assistant reply,
in order (main.go lines 128-147): a call whose name is absent from the
registry is skipped with no message. -/
def toolResults (registry : Registry) : List ToolCall → List Message
  | [] => []
  | tc :: rest =>
    match registry tc.name with
    | none => toolResults registry rest
    | some f => toolResultMessage f tc :: toolResults registry rest

/-- The error value handleUserInput can return alongside the messages. -/
inductive TurnError where
  | apiError (msg : String)
  | noChoices
  | budgetExceeded
deriving DecidableEq

/-- Return value of handleUserInput: the message history, the Go error
(none on a final answer), and the number of CreateChatCompletion calls
made, for stating the step-budget property. -/
structure TurnOutcome where
  messages : List Message
  error : Option TurnError
  modelCalls : Nat
deriving DecidableEq

/-- The for loop of handleUserInput (main.go lines 98-150), with fuel the
number of remaining iterations and calls the model calls made so far. -/
def runTurnLoop (model : Model) (registry : Registry) :
    Nat → List Message → Nat → TurnOutcome
  | 0, messages, calls => ⟨messages, some .budgetExceeded, calls⟩
  | fuel + 1, messages, calls =>
    match model messages with
    | .transportError e => ⟨messages, some (.apiError e), calls + 1⟩
    | .noChoices => ⟨messages, some .noChoices, calls + 1⟩
    | .reply responseMessage =>
      let messages1 := messages ++ [responseMessage]
      if responseMessage.toolCalls.isEmpty then ⟨messages1, none, calls + 1⟩
      else
        runTurnLoop model registry fuel
          (messages1 ++ toolResults registry responseMessage.toolCalls) (calls + 1)

/-- The configured step budget (main.go line 14). -/
def maxToolCallSteps : Nat := 5

/-- The user message appended at the start of a turn (main.go
lines 92-95). -/
def mkUserMessage (userInput : String) : Message :=
  ⟨"user", userInput, "", []⟩

/-- handleUserInput (main.go lines 84-153): append the user message, then
loop up to the step budget. -/
def handleUserInput (model : Model) (registry : Registry) (userInput : String)
    (messages : List Message) : TurnOutcome :=
  runTurnLoop model registry maxToolCallSteps (messages ++ [mkUserMessage userInput]) 0

/-! ## Concrete fixtures

Small concrete models, registries, file systems and trees used to
instantiate the theorems below on explicit inputs.
-/

/-- An assistant reply that requests one readFile call. -/
def demoToolCallReply : Message :=
  ⟨"assistant", "", "", [⟨"call-1", "readFile", "\x7b\x7d"⟩]⟩

/-- A model that requests a tool call on every response. -/
def demoLoopingModel : Model := fun _ => .reply demoToolCallReply

/-- A registry with no tools at all. -/
def emptyRegistry : Registry := fun _ => none

/-- A tool call naming a tool absent from every registry used here. -/
def unknownToolCall : ToolCall := ⟨"call-9", "unknownTool", "\x7b\x7d"⟩

/-- An assistant reply whose single call names an unknown tool. -/
def unknownToolReply : Message := ⟨"assistant", "", "", [unknownToolCall]⟩

/-- An assistant reply with no tool calls (a final answer). -/
def finalAnswerReply : Message := ⟨"assistant", "done", "", []⟩

/-- A model that first requests the unknown tool and then answers. -/
def unknownToolModel : Model := fun ms =>
  if ms.length ≤ 1 then .reply unknownToolReply else .reply finalAnswerReply

/-- A tool function that always fails at the Go level. -/
def alwaysFailFn : String → Except String String := fun _ => .error "kaboom"

/-- A registry holding one tool, boom, whose execution always fails. -/
def boomRegistry : Registry := fun nm =>
  if nm = "boom" then some alwaysFailFn else none

/-- A call to the failing boom tool. -/
def boomCall : ToolCall := ⟨"call-2", "boom", "\x7b\x7d"⟩

/-- An assistant reply requesting only the failing boom call. -/
def boomReply : Message := ⟨"assistant", "", "", [boomCall]⟩

/-- A model that first requests the boom call and then answers. -/
def boomModel : Model := fun ms =>
  if ms.length ≤ 1 then .reply boomReply else .reply finalAnswerReply

/-- A file system holding one file a.txt. -/
def demoFS : FS := ⟨[("a.txt", "old")], []⟩

/-- The tree of the search scenario: a.txt matches, b.txt does not, and
sub/c.txt matches under an excludable directory. -/
def demoTree : FsNode :=
  .dir [("a.txt", .file true ["x", "a TODO line"]),
        ("b.txt", .file true ["nothing"]),
        ("sub", .dir [("c.txt", .file true ["TODO"])])]

/-- Whether a visited file is recorded by the search: it is readable and
some line contains the keyword. -/
def fileMatches (keyword : String) (f : String × Bool × List String) : Bool :=
  f.2.1 && f.2.2.any (fun line => strContains line keyword)

/-! ## Helper lemmas -/

mutual

/-- The walk records exactly the visited files that are readable and have
a line containing the keyword. -/
theorem walkNode_eq_visible (keyword : String) (excludePaths : List String) (path : String) :
    (t : FsNode) → walkNode keyword excludePaths path t =
      ((visibleNode excludePaths path t).filter (fileMatches keyword)).map (fun f => f.1)
  | .file readable lines => by
    by_cases hex : excludePaths.any (fun e => strStartsWith path e)
    · simp [walkNode, visibleNode, hex]
    · cases readable <;>
        by_cases hany : lines.any (fun line => strContains line keyword) <;>
          simp [walkNode, visibleNode, hex, hany, fileMatches, List.filter_cons]
  | .dir entries => by
    by_cases hex : excludePaths.any (fun e => strStartsWith path e)
    · simp [walkNode, visibleNode, hex]
    · simp only [walkNode, visibleNode, hex]
      simp only [Bool.false_eq_true, if_neg, ite_false]
      exact walkEntries_eq_visible keyword excludePaths path entries

/-- Entry-list part of walkNode_eq_visible. -/
theorem walkEntries_eq_visible (keyword : String) (excludePaths : List String) (path : String) :
    (es : List (String × FsNode)) → walkEntries keyword excludePaths path es =
      ((visibleEntries excludePaths path es).filter (fileMatches keyword)).map (fun f => f.1)
  | [] => by simp [walkEntries, visibleEntries]
  | (childName, child) :: rest => by
    simp only [walkEntries, visibleEntries, List.filter_append, List.map_append]
    rw [walkNode_eq_visible keyword excludePaths (path ++ "/" ++ childName) child,
      walkEntries_eq_visible keyword excludePaths path rest]

end

/-- Identical texts give the empty diff. -/
theorem formatUnifiedDiff_self (x p q : String) : formatUnifiedDiff x x p q = "" := by
  simp [formatUnifiedDiff]

/-- The rendered unified diff is never the empty string (it starts with
the old-path header). -/
theorem toUnifiedString_ne_empty (oldPath newPath : String)
    (edits : List (String × String)) : toUnifiedString oldPath newPath edits ≠ "" := by
  intro h
  have hdata := congrArg String.data h
  simp [toUnifiedString, String.data_append] at hdata

/-- Differing texts give a non-empty diff. -/
theorem formatUnifiedDiff_ne_empty (oldText newText p q : String)
    (h : oldText ≠ newText) : formatUnifiedDiff oldText newText p q ≠ "" := by
  simp only [formatUnifiedDiff, myersComputeEdits, if_neg h]
  simpa using toUnifiedString_ne_empty p q [(oldText, newText)]

/-- A freshly written file is found with its new content. -/
theorem lookupFile_setFile (fs : FS) (path content : String) :
    lookupFile (fs.setFile path content).files path = some content := by
  simp [FS.setFile, lookupFile]

/-- setFile does not touch the directory set. -/
theorem dirs_setFile (fs : FS) (path content : String) :
    (fs.setFile path content).dirs = fs.dirs := rfl

/-- Every directory of the MkdirAll chain exists afterwards. -/
theorem mem_dirs_mkdirAll (fs : FS) (dd d : String) (hd : d ∈ ancestorDirs dd) :
    d ∈ (mkdirAll fs dd).dirs := by
  simp only [mkdirAll, List.mem_append]
  by_cases hin : d ∈ fs.dirs
  · exact Or.inl hin
  · refine Or.inr (List.mem_filter.mpr ⟨hd, ?_⟩)
    simp only [Bool.not_eq_eq_eq_not, Bool.not_true, List.any_eq_false,
      decide_eq_false_iff_not]
    intro y hy hyd
    exact hin ((of_decide_eq_true hyd) ▸ hy)

/-- toolResults distributes over list append. -/
theorem toolResults_append (registry : Registry) (a b : List ToolCall) :
    toolResults registry (a ++ b) = toolResults registry a ++ toolResults registry b := by
  induction a with
  | nil => simp [toolResults]
  | cons tc rest ih =>
    cases hr : registry tc.name <;> simp [toolResults, hr, ih]

/-- The call ids of the emitted tool messages are exactly the ids of the
registered calls, in order. -/
theorem toolResults_ids (registry : Registry) (calls : List ToolCall) :
    (toolResults registry calls).map (fun m => m.toolCallID) =
      (calls.filter (fun c => (registry c.name).isSome)).map (fun c => c.id) := by
  induction calls with
  | nil => simp [toolResults]
  | cons tc rest ih =>
    cases hr : registry tc.name <;>
      simp [toolResults, hr, ih, List.filter_cons, toolResultMessage]

/-- Every emitted tool message has the tool role and the id of one of the
calls it answers. -/
theorem toolResults_mem (registry : Registry) (calls : List ToolCall)
    (m : Message) (hm : m ∈ toolResults registry calls) :
    m.role = "tool" ∧ m.toolCallID ∈ calls.map (fun c => c.id) := by
  induction calls with
  | nil => simp [toolResults] at hm
  | cons tc rest ih =>
    cases hr : registry tc.name with
    | none =>
      rw [toolResults, hr] at hm
      obtain ⟨h1, h2⟩ := ih hm
      exact ⟨h1, by simp [h2]⟩
    | some f =>
      rw [toolResults, hr] at hm
      cases hm with
      | head => exact ⟨rfl, by simp [toolResultMessage]⟩
      | tail _ hmem =>
        obtain ⟨h1, h2⟩ := ih hmem
        exact ⟨h1, by simp [h2]⟩

/-- The loop only ever appends to the message history. -/
theorem runTurnLoop_extends (model : Model) (registry : Registry) (fuel : Nat) :
    ∀ (messages : List Message) (calls : Nat),
      messages <+: (runTurnLoop model registry fuel messages calls).messages := by
  induction fuel with
  | zero => intro messages calls; simp [runTurnLoop]
  | succ n ih =>
    intro messages calls
    cases hm : model messages with
    | transportError e => simp [runTurnLoop, hm]
    | noChoices => simp [runTurnLoop, hm]
    | reply rm =>
      by_cases hempty : rm.toolCalls.isEmpty
      · simp only [runTurnLoop, hm, hempty, if_pos]
        exact ⟨[rm], rfl⟩
      · have h2 := ih (messages ++ [rm] ++ toolResults registry rm.toolCalls) (calls + 1)
        have h1 : messages <+: messages ++ [rm] ++ toolResults registry rm.toolCalls := by
          rw [List.append_assoc]
          exact ⟨[rm] ++ toolResults registry rm.toolCalls, rfl⟩
        simp only [runTurnLoop, hm, hempty, if_neg, Bool.false_eq_true,
          not_false_eq_true]
        exact h1.trans h2

/-- Under a model that always returns tool calls, the loop burns all its
fuel, one model call per unit, and ends with the budget error. -/
theorem runTurnLoop_budget (model : Model) (registry : Registry)
    (h : ∀ ms, ∃ rm, model ms = .reply rm ∧ rm.toolCalls ≠ []) (fuel : Nat) :
    ∀ (messages : List Message) (calls : Nat),
      (runTurnLoop model registry fuel messages calls).error = some .budgetExceeded ∧
      (runTurnLoop model registry fuel messages calls).modelCalls = calls + fuel := by
  induction fuel with
  | zero => intro messages calls; simp [runTurnLoop]
  | succ n ih =>
    intro messages calls
    obtain ⟨rm, hm, hnc⟩ := h messages
    have hempty : rm.toolCalls.isEmpty = false := by
      cases hcalls : rm.toolCalls with
      | nil => exact absurd hcalls hnc
      | cons a l => simp
    obtain ⟨ih1, ih2⟩ := ih (messages ++ [rm] ++ toolResults registry rm.toolCalls) (calls + 1)
    refine ⟨?_, ?_⟩
    · simpa [runTurnLoop, hm, hempty] using ih1
    · have : (runTurnLoop model registry (n + 1) messages calls).modelCalls =
          (runTurnLoop model registry n
            (messages ++ [rm] ++ toolResults registry rm.toolCalls) (calls + 1)).modelCalls := by
        simp [runTurnLoop, hm, hempty]
      rw [this, ih2]
      omega

/-- The history produced by the loop is the starting history followed by
blocks, each an assistant reply directly followed by its tool-result
messages. -/
theorem runTurnLoop_blocks (model : Model) (registry : Registry) (fuel : Nat) :
    ∀ (messages : List Message) (calls : Nat),
      ∃ replies : List Message,
        (runTurnLoop model registry fuel messages calls).messages =
          messages ++
            (replies.map (fun rm => rm :: toolResults registry rm.toolCalls)).flatten := by
  induction fuel with
  | zero => intro messages calls; exact ⟨[], by simp [runTurnLoop]⟩
  | succ n ih =>
    intro messages calls
    cases hm : model messages with
    | transportError e => exact ⟨[], by simp [runTurnLoop, hm]⟩
    | noChoices => exact ⟨[], by simp [runTurnLoop, hm]⟩
    | reply rm =>
      by_cases hempty : rm.toolCalls.isEmpty
      · refine ⟨[rm], ?_⟩
        have hnil : rm.toolCalls = [] := by
          cases hcalls : rm.toolCalls with
          | nil => rfl
          | cons a l => rw [hcalls] at hempty; simp at hempty
        simp [runTurnLoop, hm, hempty, hnil, toolResults]
      · obtain ⟨replies, hrep⟩ :=
          ih (messages ++ [rm] ++ toolResults registry rm.toolCalls) (calls + 1)
        refine ⟨rm :: replies, ?_⟩
        have : (runTurnLoop model registry (n + 1) messages calls).messages =
            (runTurnLoop model registry n
              (messages ++ [rm] ++ toolResults registry rm.toolCalls) (calls + 1)).messages := by
          simp [runTurnLoop, hm, hempty]
        rw [this, hrep]
        simp [List.append_assoc]

/-- Shape of an EditFile call that reaches the confirmation gate: the file
exists and the new content differs, so the outcome is decided by the
trimmed operator line. -/
theorem EditFile_gate (path oldContent newContent line : String)
    (rest : List String) (fs : FS)
    (hfile : lookupFile fs.files path = some oldContent)
    (hdiff : oldContent ≠ newContent) :
    EditFile ⟨path, newContent⟩ fs (line :: rest) =
      if trimSpace line ≠ "y" ∧ trimSpace line ≠ "Y" then
        ⟨.ok (marshalToolResult false "ユーザーによってキャンセルされました"), fs, 1, rest⟩
      else
        ⟨.ok (marshalToolResult true ""), fs.setFile path newContent, 1, rest⟩ := by
  have hstat : fs.stat path = true := by simp [FS.stat, hfile]
  have hne := formatUnifiedDiff_ne_empty oldContent newContent path path hdiff
  simp [EditFile, hstat, hfile, hne]

/-- Shape of a WriteFile call that reaches the confirmation gate: the path
is fresh, so the outcome is decided by the trimmed operator line. -/
theorem WriteFile_gate (path content line : String) (rest : List String) (fs : FS)
    (hmiss : fs.stat path = false) :
    WriteFile ⟨path, content⟩ fs (line :: rest) =
      if trimSpace line ≠ "y" ∧ trimSpace line ≠ "Y" then
        ⟨.ok (marshalToolResult false "ユーザーによってキャンセルされました"), fs, 1, rest⟩
      else
        ⟨.ok (marshalToolResult true ""),
          (mkdirAll fs (dirOf path)).setFile path content, 1, rest⟩ := by
  simp [WriteFile, hmiss]

/-! ## Claims -/

/-- C1: for every message history and every model that returns at least
one tool call on each of its responses, one call to handleUserInput makes
exactly 5 model calls (the configured step budget maxToolCallSteps) and
then terminates with the budget-exceeded error; no model call beyond the
fifth is made in that turn. -/
theorem handleUserInput_budget_exhausted (model : Model) (registry : Registry)
    (userInput : String) (messages : List Message)
    (h : ∀ ms, ∃ rm, model ms = .reply rm ∧ rm.toolCalls ≠ []) :
    (handleUserInput model registry userInput messages).error = some .budgetExceeded ∧
    (handleUserInput model registry userInput messages).modelCalls = 5 ∧
    maxToolCallSteps = 5 := by
  obtain ⟨h1, h2⟩ := runTurnLoop_budget model registry h maxToolCallSteps
    (messages ++ [mkUserMessage userInput]) 0
  refine ⟨h1, ?_, rfl⟩
  rw [handleUserInput, h2]
  simp [maxToolCallSteps]

/-- Witness for C1 at a concrete looping model. -/
theorem handleUserInput_budget_exhausted_witness :
    (∀ ms, ∃ rm, demoLoopingModel ms = .reply rm ∧ rm.toolCalls ≠ []) ∧
    ((handleUserInput demoLoopingModel emptyRegistry "hi" []).error =
        some .budgetExceeded ∧
      (handleUserInput demoLoopingModel emptyRegistry "hi" []).modelCalls = 5 ∧
      maxToolCallSteps = 5) :=
  ⟨fun _ => ⟨demoToolCallReply, rfl, by decide⟩,
    handleUserInput_budget_exhausted demoLoopingModel emptyRegistry "hi" []
      (fun _ => ⟨demoToolCallReply, rfl, by decide⟩)⟩

/-- C2 counterexample: the operator line of a capital Y followed by a
space is NOT treated as cancellation as the claim states — both gates
approve it and perform the mutation, because the code trims the line
before comparing, even though the line differs from both literal
tokens. -/
theorem confirmationGate_trailing_space_approves :
    (EditFile ⟨"a.txt", "new"⟩ demoFS ["Y "]).output = .ok "\x7b\"success\":true\x7d" ∧
    (EditFile ⟨"a.txt", "new"⟩ demoFS ["Y "]).fs.files = [("a.txt", "new")] ∧
    (WriteFile ⟨"b.txt", "c"⟩ ⟨[], []⟩ ["Y "]).output = .ok "\x7b\"success\":true\x7d" ∧
    ¬ ("Y " = "y" ∨ "Y " = "Y") := by decide

/-- C2 (amended): the writeFile and editFile gates approve exactly the
lines whose whitespace-trimmed form is the literal token y or Y (so a
line such as Y with a trailing space approves); any other line —
including the empty line, n and yes — is treated as cancellation and
yields the normal (non-error) structured refusal result. -/
theorem confirmationGate_trimmed_token (line : String) (rest : List String)
    (path oldContent newContent : String) (fs : FS)
    (wpath wcontent : String) (wfs : FS)
    (hfile : lookupFile fs.files path = some oldContent)
    (hdiff : oldContent ≠ newContent)
    (hw : wfs.stat wpath = false) :
    ((EditFile ⟨path, newContent⟩ fs (line :: rest)).output =
        .ok (marshalToolResult true "") ↔
      (trimSpace line = "y" ∨ trimSpace line = "Y")) ∧
    (¬ (trimSpace line = "y" ∨ trimSpace line = "Y") →
      EditFile ⟨path, newContent⟩ fs (line :: rest) =
        ⟨.ok (marshalToolResult false "ユーザーによってキャンセルされました"),
          fs, 1, rest⟩) ∧
    ((WriteFile ⟨wpath, wcontent⟩ wfs (line :: rest)).output =
        .ok (marshalToolResult true "") ↔
      (trimSpace line = "y" ∨ trimSpace line = "Y")) ∧
    (¬ (trimSpace line = "y" ∨ trimSpace line = "Y") →
      WriteFile ⟨wpath, wcontent⟩ wfs (line :: rest) =
        ⟨.ok (marshalToolResult false "ユーザーによってキャンセルされました"),
          wfs, 1, rest⟩) := by
  have he := EditFile_gate path oldContent newContent line rest fs hfile hdiff
  have hwg := WriteFile_gate wpath wcontent line rest wfs hw
  have hdistinct : marshalToolResult false "ユーザーによってキャンセルされました" ≠
      marshalToolResult true "" := by decide
  by_cases happ : trimSpace line = "y" ∨ trimSpace line = "Y"
  · have hcond : ¬ (trimSpace line ≠ "y" ∧ trimSpace line ≠ "Y") := by
      rcases happ with h1 | h1 <;> simp [h1]
    rw [if_neg hcond] at he hwg
    refine ⟨?_, ?_, ?_, ?_⟩
    · rw [he]; exact ⟨fun _ => happ, fun _ => rfl⟩
    · intro hno; exact absurd happ hno
    · rw [hwg]; exact ⟨fun _ => happ, fun _ => rfl⟩
    · intro hno; exact absurd happ hno
  · have hcond : trimSpace line ≠ "y" ∧ trimSpace line ≠ "Y" := by
      constructor <;> intro h1 <;> exact happ (by simp [h1])
    rw [if_pos hcond] at he hwg
    refine ⟨?_, ?_, ?_, ?_⟩
    · rw [he]
      simp only [Except.ok.injEq]
      exact ⟨fun h1 => absurd h1 hdistinct, fun h1 => absurd h1 happ⟩
    · intro _; exact he
    · rw [hwg]
      simp only [Except.ok.injEq]
      exact ⟨fun h1 => absurd h1 hdistinct, fun h1 => absurd h1 happ⟩
    · intro _; exact hwg

/-- Witness for C2 (amended) at concrete inputs. -/
theorem confirmationGate_trimmed_token_witness :
    (lookupFile demoFS.files "a.txt" = some "old" ∧ "old" ≠ "new" ∧
      FS.stat ⟨[], []⟩ "b.txt" = false) ∧
    (((EditFile ⟨"a.txt", "new"⟩ demoFS ["yes"]).output =
        .ok (marshalToolResult true "") ↔
      (trimSpace "yes" = "y" ∨ trimSpace "yes" = "Y")) ∧
    (¬ (trimSpace "yes" = "y" ∨ trimSpace "yes" = "Y") →
      EditFile ⟨"a.txt", "new"⟩ demoFS ["yes"] =
        ⟨.ok (marshalToolResult false "ユーザーによってキャンセルされました"),
          demoFS, 1, []⟩) ∧
    ((WriteFile ⟨"b.txt", "c"⟩ ⟨[], []⟩ ["yes"]).output =
        .ok (marshalToolResult true "") ↔
      (trimSpace "yes" = "y" ∨ trimSpace "yes" = "Y")) ∧
    (¬ (trimSpace "yes" = "y" ∨ trimSpace "yes" = "Y") →
      WriteFile ⟨"b.txt", "c"⟩ ⟨[], []⟩ ["yes"] =
        ⟨.ok (marshalToolResult false "ユーザーによってキャンセルされました"),
          ⟨[], []⟩, 1, []⟩)) :=
  ⟨⟨rfl, by decide, rfl⟩,
    confirmationGate_trimmed_token "yes" [] "a.txt" "old" "new" demoFS
      "b.txt" "c" ⟨[], []⟩ rfl (by decide) rfl⟩

/-- C3 counterexample: a turn whose assistant message requests exactly one
tool call (naming an unregistered tool) produces zero tool-role messages,
not one per ToolCall as the claim states. -/
theorem unknownTool_call_has_no_result_message :
    unknownToolReply ∈ (handleUserInput unknownToolModel emptyRegistry "go" []).messages ∧
    unknownToolReply.toolCalls.length = 1 ∧
    ((handleUserInput unknownToolModel emptyRegistry "go" []).messages.filter
      (fun m => m.role == "tool")).length = 0 := by decide

/-- C3 (amended): the history of a turn is the input history, then the
user message, then blocks each consisting of an assistant reply directly
followed by its tool-result messages; those tool-result messages are
exactly one per ToolCall of that reply WHOSE NAMED TOOL EXISTS IN THE
REGISTRY, in the order the calls were returned, and every tool-role
message carries the call id of one of the calls of the assistant message
immediately preceding it. -/
theorem handleUserInput_toolMessage_discipline (model : Model) (registry : Registry)
    (userInput : String) (messages : List Message) :
    (∃ replies : List Message,
        (handleUserInput model registry userInput messages).messages =
          messages ++ mkUserMessage userInput ::
            (replies.map (fun rm => rm :: toolResults registry rm.toolCalls)).flatten) ∧
    (∀ calls : List ToolCall,
        (toolResults registry calls).map (fun m => m.toolCallID) =
          (calls.filter (fun c => (registry c.name).isSome)).map (fun c => c.id) ∧
        ∀ m ∈ toolResults registry calls,
          m.role = "tool" ∧ m.toolCallID ∈ calls.map (fun c => c.id)) := by
  constructor
  · obtain ⟨replies, hrep⟩ := runTurnLoop_blocks model registry maxToolCallSteps
      (messages ++ [mkUserMessage userInput]) 0
    exact ⟨replies, by simpa [handleUserInput, List.append_assoc] using hrep⟩
  · intro calls
    exact ⟨toolResults_ids registry calls, fun m hm => toolResults_mem registry calls m hm⟩

/-- C4: when a registered tool's execution function returns a Go error,
the orchestrator does not raise: the error is packaged into the JSON
error result and appended as that call's tool-role message, and the loop
continues to the next model call. -/
theorem toolFailure_is_packaged (model : Model) (registry : Registry)
    (fuel calls : Nat) (messages : List Message) (rm : Message)
    (tc : ToolCall) (rest : List ToolCall)
    (f : String → Except String String) (e : String)
    (hreg : registry tc.name = some f) (hf : f tc.args = .error e)
    (hm : model messages = .reply rm) (hcalls : rm.toolCalls = tc :: rest) :
    toolResults registry rm.toolCalls =
      ⟨"tool", toolExecFailedJSON e, tc.id, []⟩ :: toolResults registry rest ∧
    runTurnLoop model registry (fuel + 1) messages calls =
      runTurnLoop model registry fuel
        (messages ++ rm :: toolResults registry rm.toolCalls) (calls + 1) := by
  constructor
  · rw [hcalls]
    simp [toolResults, hreg, toolResultMessage, hf]
  · have hempty : rm.toolCalls.isEmpty = false := by rw [hcalls]; simp
    simp [runTurnLoop, hm, hempty, List.append_assoc]

/-- Witness for C4 at the concrete failing boom tool. -/
theorem toolFailure_is_packaged_witness :
    (boomRegistry boomCall.name = some alwaysFailFn ∧
      alwaysFailFn boomCall.args = .error "kaboom" ∧
      boomModel [] = .reply boomReply ∧
      boomReply.toolCalls = [boomCall]) ∧
    (toolResults boomRegistry boomReply.toolCalls =
        ⟨"tool", toolExecFailedJSON "kaboom", boomCall.id, []⟩ ::
          toolResults boomRegistry [] ∧
      runTurnLoop boomModel boomRegistry 1 [] 0 =
        runTurnLoop boomModel boomRegistry 0
          ([] ++ boomReply :: toolResults boomRegistry boomReply.toolCalls) 1) :=
  ⟨⟨rfl, rfl, rfl, rfl⟩,
    toolFailure_is_packaged boomModel boomRegistry 0 0 [] boomReply boomCall []
      alwaysFailFn "kaboom" rfl rfl rfl rfl⟩

/-- C5: editFile with new content byte-identical to the current file
content returns the structured no-op error result, shows no prompt and
reads no operator input, and leaves the file system unchanged; the diff
engine yields the empty edit script on identical inputs. -/
theorem editFile_identical_noop (path content : String) (fs : FS) (stdin : List String)
    (hfile : lookupFile fs.files path = some content) :
    EditFile ⟨path, content⟩ fs stdin =
      ⟨.ok (marshalToolResult false "ファイルに変更がありません"), fs, 0, stdin⟩ ∧
    (∀ x p q : String, formatUnifiedDiff x x p q = "") ∧
    (∀ x : String, myersComputeEdits x x = []) := by
  refine ⟨?_, fun x p q => formatUnifiedDiff_self x p q, fun x => by simp [myersComputeEdits]⟩
  have hstat : fs.stat path = true := by simp [FS.stat, hfile]
  simp [EditFile, hstat, hfile, formatUnifiedDiff_self]

/-- Witness for C5 on a concrete file system. -/
theorem editFile_identical_noop_witness :
    lookupFile demoFS.files "a.txt" = some "old" ∧
    (EditFile ⟨"a.txt", "old"⟩ demoFS ["y"] =
      ⟨.ok (marshalToolResult false "ファイルに変更がありません"), demoFS, 0, ["y"]⟩ ∧
    (∀ x p q : String, formatUnifiedDiff x x p q = "") ∧
    (∀ x : String, myersComputeEdits x x = [])) :=
  ⟨rfl, editFile_identical_noop "a.txt" "old" demoFS ["y"] rfl⟩

/-- C6: writeFile on an existing path and editFile on a missing path both
return a structured error result immediately: no prompt, no operator
read, and no change to the file system. -/
theorem write_existing_edit_missing (wpath wcontent : String) (wfs : FS)
    (wstdin : List String) (epath enew : String) (efs : FS) (estdin : List String)
    (hex : wfs.stat wpath = true) (hmiss : efs.stat epath = false) :
    WriteFile ⟨wpath, wcontent⟩ wfs wstdin =
      ⟨.ok (marshalToolResult false
          ("ファイルが既に存在します。既存ファイルの編集にはeditFileを使用してください: " ++ wpath)),
        wfs, 0, wstdin⟩ ∧
    EditFile ⟨epath, enew⟩ efs estdin =
      ⟨.ok (marshalToolResult false
          "ファイルが存在しません。新しいファイルの作成にはwriteFileを使用してください。"),
        efs, 0, estdin⟩ := by
  constructor
  · simp [WriteFile, hex]
  · simp [EditFile, hmiss]

/-- Witness for C6 on concrete file systems. -/
theorem write_existing_edit_missing_witness :
    (FS.stat demoFS "a.txt" = true ∧ FS.stat ⟨[], []⟩ "missing.txt" = false) ∧
    (WriteFile ⟨"a.txt", "x"⟩ demoFS ["y"] =
      ⟨.ok (marshalToolResult false
          ("ファイルが既に存在します。既存ファイルの編集にはeditFileを使用してください: " ++ "a.txt")),
        demoFS, 0, ["y"]⟩ ∧
    EditFile ⟨"missing.txt", "x"⟩ ⟨[], []⟩ ["y"] =
      ⟨.ok (marshalToolResult false
          "ファイルが存在しません。新しいファイルの作成にはwriteFileを使用してください。"),
        ⟨[], []⟩, 0, ["y"]⟩) :=
  ⟨⟨rfl, rfl⟩,
    write_existing_edit_missing "a.txt" "x" demoFS ["y"] "missing.txt" "x" ⟨[], []⟩ ["y"]
      rfl rfl⟩

/-- C7: writeFile on a fresh path with operator answer y creates the
missing parent directories and the file with exactly the given content
and reports success with no error; with answer n it creates nothing and
reports the structured cancellation error. -/
theorem writeFile_gate_outcomes (path content : String) (fs : FS)
    (rest1 rest2 : List String) (hmiss : fs.stat path = false) :
    WriteFile ⟨path, content⟩ fs ("y" :: rest1) =
      ⟨.ok "\x7b\"success\":true\x7d",
        (mkdirAll fs (dirOf path)).setFile path content, 1, rest1⟩ ∧
    lookupFile (WriteFile ⟨path, content⟩ fs ("y" :: rest1)).fs.files path =
      some content ∧
    (∀ d ∈ ancestorDirs (dirOf path),
        d ∈ (WriteFile ⟨path, content⟩ fs ("y" :: rest1)).fs.dirs) ∧
    WriteFile ⟨path, content⟩ fs ("n" :: rest2) =
      ⟨.ok (marshalToolResult false "ユーザーによってキャンセルされました"), fs, 1, rest2⟩ := by
  have hycond : ¬ (trimSpace "y" ≠ "y" ∧ trimSpace "y" ≠ "Y") := by decide
  have hncond : trimSpace "n" ≠ "y" ∧ trimSpace "n" ≠ "Y" := by decide
  have hy := WriteFile_gate path content "y" rest1 fs hmiss
  rw [if_neg hycond] at hy
  have hn := WriteFile_gate path content "n" rest2 fs hmiss
  rw [if_pos hncond] at hn
  refine ⟨?_, ?_, ?_, hn⟩
  · rw [hy]
    have hjson : marshalToolResult true "" = "\x7b\"success\":true\x7d" := by decide
    rw [hjson]
  · rw [hy]
    exact lookupFile_setFile (mkdirAll fs (dirOf path)) path content
  · intro d hd
    rw [hy]
    exact mem_dirs_mkdirAll fs (dirOf path) d hd

/-- Witness for C7 at the scenario of the spec: notes.txt with content
hello. -/
theorem writeFile_gate_outcomes_witness :
    FS.stat ⟨[], []⟩ "notes.txt" = false ∧
    (WriteFile ⟨"notes.txt", "hello"⟩ ⟨[], []⟩ ("y" :: []) =
      ⟨.ok "\x7b\"success\":true\x7d",
        (mkdirAll ⟨[], []⟩ (dirOf "notes.txt")).setFile "notes.txt" "hello", 1, []⟩ ∧
    lookupFile (WriteFile ⟨"notes.txt", "hello"⟩ ⟨[], []⟩ ("y" :: [])).fs.files
      "notes.txt" = some "hello" ∧
    (∀ d ∈ ancestorDirs (dirOf "notes.txt"),
        d ∈ (WriteFile ⟨"notes.txt", "hello"⟩ ⟨[], []⟩ ("y" :: [])).fs.dirs) ∧
    WriteFile ⟨"notes.txt", "hello"⟩ ⟨[], []⟩ ("n" :: []) =
      ⟨.ok (marshalToolResult false "ユーザーによってキャンセルされました"),
        ⟨[], []⟩, 1, []⟩) :=
  ⟨rfl, writeFile_gate_outcomes "notes.txt" "hello" ⟨[], []⟩ [] [] rfl⟩

/-- C8: a tool call whose function name is absent from the registry is
ignored: no tool executes, no tool-role message is appended for it, no
error is raised, and the turn loop continues to the next model call. -/
theorem unknownTool_is_skipped (registry : Registry) (tc : ToolCall)
    (pre post : List ToolCall) (h : registry tc.name = none)
    (model : Model) (fuel calls : Nat) (messages : List Message) (rm : Message)
    (hm : model messages = .reply rm) (hcalls : rm.toolCalls = pre ++ tc :: post) :
    toolResults registry (pre ++ tc :: post) = toolResults registry (pre ++ post) ∧
    (∀ m ∈ toolResults registry (pre ++ tc :: post),
        m.toolCallID ∈ (pre ++ post).map (fun c => c.id)) ∧
    runTurnLoop model registry (fuel + 1) messages calls =
      runTurnLoop model registry fuel
        (messages ++ rm :: toolResults registry rm.toolCalls) (calls + 1) := by
  have heq : toolResults registry (pre ++ tc :: post) =
      toolResults registry (pre ++ post) := by
    rw [toolResults_append, toolResults_append]
    congr 1
    simp [toolResults, h]
  refine ⟨heq, ?_, ?_⟩
  · intro m hmem
    rw [heq] at hmem
    exact (toolResults_mem registry (pre ++ post) m hmem).2
  · have hempty : rm.toolCalls.isEmpty = false := by
      rw [hcalls]; cases pre <;> simp
    simp [runTurnLoop, hm, hempty, List.append_assoc]

/-- Witness for C8 at the concrete unknown-tool model. -/
theorem unknownTool_is_skipped_witness :
    (emptyRegistry unknownToolCall.name = none ∧
      unknownToolModel [] = .reply unknownToolReply ∧
      unknownToolReply.toolCalls = [] ++ unknownToolCall :: []) ∧
    (toolResults emptyRegistry ([] ++ unknownToolCall :: []) =
        toolResults emptyRegistry ([] ++ []) ∧
      (∀ m ∈ toolResults emptyRegistry ([] ++ unknownToolCall :: []),
          m.toolCallID ∈ (([] ++ []) : List ToolCall).map (fun c => c.id)) ∧
      runTurnLoop unknownToolModel emptyRegistry 1 [] 0 =
        runTurnLoop unknownToolModel emptyRegistry 0
          ([] ++ unknownToolReply :: toolResults emptyRegistry unknownToolReply.toolCalls)
          1) :=
  ⟨⟨rfl, rfl, rfl⟩,
    unknownTool_is_skipped emptyRegistry unknownToolCall [] [] rfl
      unknownToolModel 0 0 [] unknownToolReply rfl rfl⟩

/-- C9: searchInDirectory returns exactly the visited (non-pruned) files
that are readable and have a line containing the keyword, each at most
once: paths starting with an excluded prefix are pruned (a pruned
directory with its whole subtree) and unreadable files are silently
skipped. -/
theorem searchInDirectory_exact (path keyword : String)
    (excludePaths : List String) (t : FsNode) :
    SearchInDirectory path keyword excludePaths t =
      ((visibleNode excludePaths path t).filter (fileMatches keyword)).map
        (fun f => f.1) :=
  walkNode_eq_visible keyword excludePaths path t

/-- Scenario check from the spec: searching for TODO with no excludes
finds a.txt and sub/c.txt. -/
theorem searchScenario_no_excludes :
    SearchInDirectory "dir" "TODO" [] demoTree = ["dir/a.txt", "dir/sub/c.txt"] := by
  decide

/-- Scenario check from the spec: excluding dir/sub prunes the match
under it. -/
theorem searchScenario_excluded_subtree :
    SearchInDirectory "dir" "TODO" ["dir/sub"] demoTree = ["dir/a.txt"] := by
  decide

/-- C10: handleUserInput only appends: the input history (and the input
history followed by the new user message) is a prefix of the returned
history, in every outcome. -/
theorem handleUserInput_append_only (model : Model) (registry : Registry)
    (userInput : String) (messages : List Message) :
    messages <+: (handleUserInput model registry userInput messages).messages ∧
    messages ++ [mkUserMessage userInput] <+:
      (handleUserInput model registry userInput messages).messages := by
  have h := runTurnLoop_extends model registry maxToolCallSteps
    (messages ++ [mkUserMessage userInput]) 0
  have h0 : messages <+: messages ++ [mkUserMessage userInput] :=
    ⟨[mkUserMessage userInput], rfl⟩
  exact ⟨h0.trans h, h⟩

end Nebula
